import Mathlib

/-!
# Verification of the systray-rs core (src/lib.rs)

Shallow embedding of the event-delivery and callback-dispatch engine of the
systray library. The data model mirrors src/lib.rs:

* `SystrayError` and `SystrayEvent` are the error and event unions.
* The callback registry `HashMap<u32, Callback>` is embedded as an
  association list `List (Nat × Nat)`; handlers are opaque and represented
  by a `Nat` tag chosen by the caller. `HashMap::insert` replaces the value
  at an existing key, which `insertAssoc` reproduces.
* The `Application` struct keeps the fields the claims are about:
  `menu_idx` and the registry `callback`. The platform window
  (`api::api::Window`) is the external collaborator excluded from the
  repository sources; each of its fallible operations is passed in as an
  explicit result value (`Except SystrayError Unit`), so an `Application`
  method that calls the window takes that result as an argument.
  The `u32` counter `menu_idx` is embedded as `Nat`: in Rust, overflow of
  `menu_idx += 1` is a program error (a panic under the default debug
  profile), so the embedding covers the executions in which the increment
  is defined.
* The dispatch loop of `wait_for_message` is embedded as a function over
  the FIFO list of events received from the channel. The list being
  exhausted models the channel-closed `Err(_)` arm of `recv()` (every
  sender dropped). Handler invocation is recorded as a trace action; the
  `unwrap` on the registry lookup is modelled by `Option`, with `none`
  standing for the panic path.
-/

inductive SystrayError where
  | OsError (detail : String)
  | NotImplementedError
  | UnknownError
deriving DecidableEq, Repr

inductive SystrayEvent where
  | MenuEvent (id : Nat)
  | Quit
deriving DecidableEq, Repr

/-- The callback registry: association-list embedding of
`HashMap<u32, Callback>`, keys are menu ids, values are opaque handler
tags. -/
abbrev Registry := List (Nat × Nat)

/-- Embedding of `HashMap::contains_key`. -/
def contains_key (k : Nat) : Registry → Bool
  | [] => false
  | (k', _) :: rest => k' = k || contains_key k rest

/-- Embedding of `HashMap::get` (returns the value stored at `k`, if
any). -/
def map_get (k : Nat) : Registry → Option Nat
  | [] => none
  | (k', v) :: rest => if k' = k then some v else map_get k rest

/-- Embedding of `HashMap::insert`: replaces the value at an existing key,
otherwise appends the new binding. -/
def insertAssoc (k v : Nat) : Registry → Registry
  | [] => [(k, v)]
  | (k', v') :: rest =>
      if k' = k then (k, v) :: rest else (k', v') :: insertAssoc k v rest

/-- The `Application` struct of src/lib.rs, restricted to the fields the
claims are about (`window`, `tx`, `rx` are the external window handle and
the channel endpoints). -/
structure Application where
  menu_idx : Nat
  callback : Registry
deriving DecidableEq, Repr

/-- `Application::new`: builds the channel, asks the window constructor;
on success the application starts with `menu_idx = 0` and an empty
registry; on window failure the error is returned. The window
constructor's outcome is the `winRes` argument. -/
def Application.new (winRes : Except SystrayError Unit) :
    Except SystrayError Application :=
  match winRes with
  | .ok _ => .ok { menu_idx := 0, callback := [] }
  | .error e => .error e

/-- `Application::add_menu_item`: reads `idx = self.menu_idx`, calls
`window.add_menu_entry(idx, item_name)` (outcome `winRes`); on window error
returns the error with `self` untouched; on success inserts the handler at
`idx`, increments `menu_idx` and returns `Ok(idx)`. The pair returned is
(function result, state of `self` after the call). -/
def Application.add_menu_item (app : Application) (handler : Nat)
    (winRes : Except SystrayError Unit) :
    Except SystrayError Nat × Application :=
  let idx := app.menu_idx
  match winRes with
  | .error e => (.error e, app)
  | .ok _ =>
      (.ok idx,
       { menu_idx := idx + 1,
         callback := insertAssoc idx handler app.callback })

/-- `Application::add_menu_separator`: reads `idx = self.menu_idx`, calls
`window.add_menu_separator(idx)` (outcome `winRes`); on window error
returns the error with `self` untouched; on success increments `menu_idx`
and returns `Ok(idx)`. No registry entry is added. -/
def Application.add_menu_separator (app : Application)
    (winRes : Except SystrayError Unit) :
    Except SystrayError Nat × Application :=
  let idx := app.menu_idx
  match winRes with
  | .error e => (.error e, app)
  | .ok _ => (.ok idx, { app with menu_idx := idx + 1 })

/-- `Application::set_icon_from_file`: pass-through of the window call's
result. -/
def Application.set_icon_from_file (winRes : Except SystrayError Unit) :
    Except SystrayError Unit :=
  winRes

/-- `Application::set_icon_from_resource`: pass-through of the window
call's result. -/
def Application.set_icon_from_resource (winRes : Except SystrayError Unit) :
    Except SystrayError Unit :=
  winRes

/-- `Application::set_tooltip`: pass-through of the window call's
result. -/
def Application.set_tooltip (winRes : Except SystrayError Unit) :
    Except SystrayError Unit :=
  winRes

/-- `Application::shutdown`: pass-through of `window.shutdown()`. -/
def Application.shutdown (winRes : Except SystrayError Unit) :
    Except SystrayError Unit :=
  winRes

/-- The argument record a window receives from a buffer-icon call.
Modelled from the spec: the platform window (module `api`, absent from
src/) exposes `set_icon_from_buffer(bytes, width, height)` with the width
second and the height third. -/
structure WindowIconCall where
  buffer : List Nat
  width : Nat
  height : Nat
deriving DecidableEq, Repr

/-- `Application::set_icon_from_buffer` as written in src/lib.rs: the
public signature is `(buffer: &[u8], height: u32, width: u32)` — height
second, width third — and the body forwards
`window.set_icon_from_buffer(buffer, width, height)`, returning the
window's result unchanged. `window` is the window's buffer-icon operation
as a function of the call record. -/
def Application.set_icon_from_buffer
    (window : WindowIconCall → Except SystrayError Unit)
    (buffer : List Nat) (height : Nat) (width : Nat) :
    Except SystrayError Unit :=
  window { buffer := buffer, width := width, height := height }

/-- Modelled from the spec: what claim C7 states the signature to be —
`set_icon_from_buffer(bytes, width, height)` (width second, height third)
forwarding each argument in the role the caller gave it. -/
def claimed_set_icon_from_buffer
    (window : WindowIconCall → Except SystrayError Unit)
    (bytes : List Nat) (width : Nat) (height : Nat) :
    Except SystrayError Unit :=
  window { buffer := bytes, width := width, height := height }

/-- Rust's `Result::ok`: converts `Result<T, E>` to `Option<T>`,
discarding the error. -/
def rustResultOk {ε α : Type} : Except ε α → Option α
  | .ok a => some a
  | .error _ => none

/-- `impl Drop for Application { fn drop(&mut self) { self.shutdown().ok(); } }`:
the shutdown result is converted with `.ok()` and discarded; drop itself
returns nothing and propagates nothing. -/
def Application.dropApp (shutdownRes : Except SystrayError Unit) : Unit :=
  let _ := rustResultOk shutdownRes
  ()

/-- Who holds live sender clones of the event channel when the dispatch
loop starts, from the source: `new` stores `event_tx` in `self.tx` after
handing `event_tx.clone()` to the window constructor, and
`wait_for_message` makes one clone for the caller, then moves `self` —
carrying `tx` and the window — into the spawned closure. -/
structure ChannelSenders where
  heldByLoop : Nat
  heldOutside : Nat
deriving DecidableEq, Repr

/-- Sender accounting at loop start: `self.tx` and the window's clone of
`event_tx` travel with `self` into the spawned thread; the clone made at
the start of `wait_for_message` is returned to the caller. -/
def sendersAtLoopStart : ChannelSenders :=
  { heldByLoop := 2, heldOutside := 1 }

/-- `mpsc::Receiver::recv` returns `Err` exactly when every `Sender` of
the channel has been dropped. -/
def recvReturnsErr (s : ChannelSenders) : Bool :=
  s.heldByLoop + s.heldOutside = 0

/-- Dropping every sender clone held outside the dispatch loop. -/
def dropAllOutside (s : ChannelSenders) : ChannelSenders :=
  { s with heldOutside := 0 }

/-- One observable action of the dispatch thread spawned by
`wait_for_message`. -/
inductive DispatchAction where
  | invoke (id : Nat) (cb : Nat)
  | quitCall
  | shutdownCall
deriving DecidableEq, Repr

/-- The loop body of `wait_for_message` over the FIFO contents of the
channel. `[]` models `rx.recv()` returning `Err(_)` (all senders dropped):
the loop breaks. On `MenuEvent(m)` the code tests `contains_key(&m)` and,
if true, `get(&m).unwrap()` and invokes the handler (`none` models the
`unwrap` panic); on `Quit` (the `_` arm) the loop breaks, leaving later
events unread. -/
def processEvents (reg : Registry) : List SystrayEvent → Option (List DispatchAction)
  | [] => some []
  | SystrayEvent.MenuEvent m :: rest =>
      if contains_key m reg then
        match map_get m reg with
        | some cb =>
            match processEvents reg rest with
            | some t => some (DispatchAction.invoke m cb :: t)
            | none => none
        | none => none
      else processEvents reg rest
  | SystrayEvent.Quit :: _ => some []

/-- The whole dispatch thread of `wait_for_message`: run the loop, then
`self.quit()`, then `self` is dropped at the end of the closure, running
`shutdown` via the `Drop` impl. -/
def waitRun (reg : Registry) (evts : List SystrayEvent) :
    Option (List DispatchAction) :=
  match processEvents reg evts with
  | some t => some (t ++ [DispatchAction.quitCall, DispatchAction.shutdownCall])
  | none => none

/-- The handler invocations the loop performs on an event list: one
invocation per `MenuEvent` whose id is registered, in FIFO order, stopping
at the first `Quit`. -/
def invocationsUpTo (reg : Registry) : List SystrayEvent → List DispatchAction
  | [] => []
  | SystrayEvent.MenuEvent m :: rest =>
      match map_get m reg with
      | some cb => DispatchAction.invoke m cb :: invocationsUpTo reg rest
      | none => invocationsUpTo reg rest
  | SystrayEvent.Quit :: _ => []

/-- One registration call on the application thread: `add_menu_item` with
an opaque handler tag, or `add_menu_separator`. -/
inductive MenuCall where
  | item (handler : Nat)
  | separator
deriving DecidableEq, Repr

/-- Apply one registration call, given the outcome of the window call it
performs. -/
def applyCall (app : Application) : MenuCall → Except SystrayError Unit →
    Except SystrayError Nat × Application
  | .item h, res => app.add_menu_item h res
  | .separator, res => app.add_menu_separator res

/-- Run a sequence of registration calls, each paired with its window
outcome; returns the list of call results and the final application
state. -/
def runCalls (app : Application) :
    List (MenuCall × Except SystrayError Unit) →
    List (Except SystrayError Nat) × Application
  | [] => ([], app)
  | (c, r) :: rest =>
      let step := applyCall app c r
      let tail := runCalls step.2 rest
      (step.1 :: tail.1, tail.2)

-- Basic registry lemmas

theorem contains_key_eq_isSome (k : Nat) (l : Registry) :
    contains_key k l = (map_get k l).isSome := by
  induction l with
  | nil => rfl
  | cons p rest ih =>
      cases p with
      | mk k' v =>
          by_cases h : k' = k <;> simp [contains_key, map_get, h, ih]

theorem map_get_insertAssoc_self (k v : Nat) (l : Registry) :
    map_get k (insertAssoc k v l) = some v := by
  induction l with
  | nil => simp [insertAssoc, map_get]
  | cons p rest ih =>
      cases p with
      | mk k' v' =>
          by_cases h : k' = k <;> simp [insertAssoc, map_get, h, ih]

theorem map_get_insertAssoc_ne (k v k' : Nat) (l : Registry) (h : k ≠ k') :
    map_get k' (insertAssoc k v l) = map_get k' l := by
  induction l with
  | nil => simp [insertAssoc, map_get, h]
  | cons p rest ih =>
      cases p with
      | mk k₀ v₀ =>
          by_cases h₀ : k₀ = k
          · subst h₀
            simp [insertAssoc, map_get, h]
          · by_cases h₁ : k₀ = k' <;>
              simp [insertAssoc, map_get, h₀, h₁, ih, Ne.symm h]

theorem contains_key_insertAssoc (k v k' : Nat) (l : Registry) :
    contains_key k' (insertAssoc k v l) = (k = k' || contains_key k' l) := by
  by_cases h : k = k'
  · subst h
    simp [contains_key_eq_isSome, map_get_insertAssoc_self]
  · simp [contains_key_eq_isSome, map_get_insertAssoc_ne k v k' l h, h]

-- Dispatch-loop lemmas

theorem processEvents_eq_invocations (reg : Registry) (evts : List SystrayEvent) :
    processEvents reg evts = some (invocationsUpTo reg evts) := by
  induction evts with
  | nil => rfl
  | cons e rest ih =>
      cases e with
      | MenuEvent m =>
          cases hm : map_get m reg with
          | none =>
              have hc : contains_key m reg = false := by
                simp [contains_key_eq_isSome, hm]
              simp [processEvents, invocationsUpTo, hc, hm, ih]
          | some cb =>
              have hc : contains_key m reg = true := by
                simp [contains_key_eq_isSome, hm]
              simp [processEvents, invocationsUpTo, hc, hm, ih]
      | Quit => rfl

theorem invocationsUpTo_append (reg : Registry) (pre rest : List SystrayEvent)
    (h : SystrayEvent.Quit ∉ pre) :
    invocationsUpTo reg (pre ++ rest) =
      invocationsUpTo reg pre ++ invocationsUpTo reg rest := by
  induction pre with
  | nil => simp [invocationsUpTo]
  | cons e pre' ih =>
      cases e with
      | MenuEvent m =>
          have h' : SystrayEvent.Quit ∉ pre' := fun hmem => h (List.mem_cons_of_mem _ hmem)
          cases hm : map_get m reg <;>
            simp [invocationsUpTo, hm, ih h']
      | Quit => exact absurd (List.mem_cons_self _ _) h

theorem invocationsUpTo_skip (reg : Registry) (id : Nat)
    (hm : map_get id reg = none) (pre post : List SystrayEvent) :
    invocationsUpTo reg (pre ++ SystrayEvent.MenuEvent id :: post) =
      invocationsUpTo reg (pre ++ post) := by
  induction pre with
  | nil => simp [invocationsUpTo, hm]
  | cons e pre' ih =>
      cases e with
      | MenuEvent m => cases h : map_get m reg <;> simp [invocationsUpTo, h, ih]
      | Quit => rfl

theorem invocationsUpTo_only_invoke (reg : Registry) (evts : List SystrayEvent) :
    ∀ a ∈ invocationsUpTo reg evts, ∃ id cb, a = DispatchAction.invoke id cb := by
  induction evts with
  | nil => intro a ha; simp [invocationsUpTo] at ha
  | cons e rest ih =>
      intro a ha
      cases e with
      | MenuEvent m =>
          cases hm : map_get m reg with
          | none =>
              rw [invocationsUpTo, hm] at ha
              exact ih a ha
          | some cb =>
              rw [invocationsUpTo, hm] at ha
              rcases List.mem_cons.mp ha with h | h
              · exact ⟨m, cb, h⟩
              · exact ih a h
      | Quit => simp [invocationsUpTo] at ha

theorem count_quitCall_invocations (reg : Registry) (evts : List SystrayEvent) :
    List.count DispatchAction.quitCall (invocationsUpTo reg evts) = 0 := by
  rw [List.count_eq_zero]
  intro hmem
  rcases invocationsUpTo_only_invoke reg evts _ hmem with ⟨id, cb, h⟩
  cases h

theorem count_shutdownCall_invocations (reg : Registry) (evts : List SystrayEvent) :
    List.count DispatchAction.shutdownCall (invocationsUpTo reg evts) = 0 := by
  rw [List.count_eq_zero]
  intro hmem
  rcases invocationsUpTo_only_invoke reg evts _ hmem with ⟨id, cb, h⟩
  cases h

theorem waitRun_eq (reg : Registry) (evts : List SystrayEvent) :
    waitRun reg evts =
      some (invocationsUpTo reg evts ++
        [DispatchAction.quitCall, DispatchAction.shutdownCall]) := by
  rw [waitRun, processEvents_eq_invocations]

-- Registration-run lemmas

theorem runCalls_cons (app : Application) (c : MenuCall)
    (r : Except SystrayError Unit) (rest : List (MenuCall × Except SystrayError Unit)) :
    runCalls app ((c, r) :: rest) =
      ((applyCall app c r).1 :: (runCalls (applyCall app c r).2 rest).1,
       (runCalls (applyCall app c r).2 rest).2) := rfl

theorem runCalls_all_ok (l : List (MenuCall × Except SystrayError Unit)) :
    ∀ app : Application, (∀ p ∈ l, p.2 = Except.ok ()) →
    (runCalls app l).1 = (List.range' app.menu_idx l.length).map Except.ok ∧
    (runCalls app l).2.menu_idx = app.menu_idx + l.length := by
  induction l with
  | nil => intro app _; simp [runCalls]
  | cons p rest ih =>
      intro app h
      obtain ⟨c, r⟩ := p
      have hr : r = Except.ok () := h (c, r) (List.mem_cons_self _ _)
      subst hr
      have h' : ∀ q ∈ rest, q.2 = Except.ok () :=
        fun q hq => h q (List.mem_cons_of_mem _ hq)
      have hstep : (applyCall app c (Except.ok ())).1 = Except.ok app.menu_idx ∧
          (applyCall app c (Except.ok ())).2.menu_idx = app.menu_idx + 1 := by
        cases c <;>
          simp [applyCall, Application.add_menu_item, Application.add_menu_separator]
      obtain ⟨hout, hidx⟩ := hstep
      obtain ⟨ih1, ih2⟩ := ih (applyCall app c (Except.ok ())).2 h'
      refine ⟨?_, ?_⟩
      · rw [runCalls_cons]
        simp only [List.length_cons, List.range'_succ, List.map_cons]
        rw [hout, ih1, hidx]
      · rw [runCalls_cons]
        simp only [List.length_cons]
        rw [ih2, hidx]
        omega

theorem applyCall_keys_mono (app : Application) (c : MenuCall)
    (r : Except SystrayError Unit) (k : Nat)
    (h : contains_key k app.callback = true) :
    contains_key k (applyCall app c r).2.callback = true := by
  cases c <;> cases r <;>
    simp [applyCall, Application.add_menu_item, Application.add_menu_separator,
      contains_key_insertAssoc, h]

theorem runCalls_keys_mono (l : List (MenuCall × Except SystrayError Unit)) :
    ∀ app k, contains_key k app.callback = true →
    contains_key k (runCalls app l).2.callback = true := by
  induction l with
  | nil => intro app k h; exact h
  | cons p rest ih =>
      intro app k h
      obtain ⟨c, r⟩ := p
      rw [runCalls_cons]
      exact ih _ k (applyCall_keys_mono app c r k h)

theorem runCalls_append (l₁ l₂ : List (MenuCall × Except SystrayError Unit)) :
    ∀ app, runCalls app (l₁ ++ l₂) =
      ((runCalls app l₁).1 ++ (runCalls (runCalls app l₁).2 l₂).1,
       (runCalls (runCalls app l₁).2 l₂).2) := by
  induction l₁ with
  | nil => intro app; simp [runCalls]
  | cons p rest ih =>
      intro app
      obtain ⟨c, r⟩ := p
      simp only [List.cons_append, runCalls_cons, ih]

theorem applyCall_bound (app : Application) (c : MenuCall)
    (r : Except SystrayError Unit)
    (h : ∀ k, contains_key k app.callback = true → k < app.menu_idx) :
    ∀ k, contains_key k (applyCall app c r).2.callback = true →
      k < (applyCall app c r).2.menu_idx := by
  intro k hk
  cases c <;> cases r <;>
    simp_all [applyCall, Application.add_menu_item, Application.add_menu_separator,
      contains_key_insertAssoc]
  · rcases hk with hk | hk
    · omega
    · exact Nat.lt_succ_of_lt (h k hk)
  · exact Nat.lt_succ_of_lt (h k hk)

theorem runCalls_bound (l : List (MenuCall × Except SystrayError Unit)) :
    ∀ app, (∀ k, contains_key k app.callback = true → k < app.menu_idx) →
    ∀ k, contains_key k (runCalls app l).2.callback = true →
      k < (runCalls app l).2.menu_idx := by
  induction l with
  | nil => intro app h; exact h
  | cons p rest ih =>
      intro app h
      obtain ⟨c, r⟩ := p
      rw [runCalls_cons]
      exact ih _ (applyCall_bound app c r h)

theorem runCalls_key_provenance (l : List (MenuCall × Except SystrayError Unit)) :
    ∀ app k, contains_key k (runCalls app l).2.callback = true →
    contains_key k app.callback = true ∨
    ∃ i hd, l.get? i = some (MenuCall.item hd, Except.ok ()) ∧
      (runCalls app l).1.get? i = some (Except.ok k) := by
  induction l with
  | nil => intro app k h; exact Or.inl h
  | cons p rest ih =>
      intro app k h
      obtain ⟨c, r⟩ := p
      rw [runCalls_cons] at h
      rcases ih (applyCall app c r).2 k h with h0 | ⟨i, hd, h1, h2⟩
      · cases c with
        | separator =>
            cases r with
            | ok u =>
                exact Or.inl (by
                  simpa [applyCall, Application.add_menu_separator] using h0)
            | error e =>
                exact Or.inl (by
                  simpa [applyCall, Application.add_menu_separator] using h0)
        | item hd =>
            cases r with
            | error e =>
                exact Or.inl (by
                  simpa [applyCall, Application.add_menu_item] using h0)
            | ok u =>
                cases u
                rw [applyCall] at h0
                simp only [Application.add_menu_item] at h0
                rw [contains_key_insertAssoc] at h0
                rcases Bool.or_eq_true_iff.mp h0 with hk | hk
                · refine Or.inr ⟨0, hd, ?_, ?_⟩
                  · simp
                  · have : k = app.menu_idx := (of_decide_eq_true hk).symm
                    subst this
                    rw [runCalls_cons]
                    simp [applyCall, Application.add_menu_item]
                · exact Or.inl hk
      · refine Or.inr ⟨i + 1, hd, ?_, ?_⟩
        · simpa using h1
        · rw [runCalls_cons]
          simpa using h2

/-- Claim C5: if the platform window call inside `add_menu_item` fails,
the error is returned and both `menu_idx` and the callback registry are
exactly as they were before the call (the failed id is not consumed, no
handler is stored); `add_menu_separator` is likewise atomic with respect
to the counter. -/
theorem failed_add_leaves_state_unchanged (app : Application) (handler : Nat)
    (e : SystrayError) :
    app.add_menu_item handler (Except.error e) = (Except.error e, app) ∧
    app.add_menu_separator (Except.error e) = (Except.error e, app) ∧
    (app.add_menu_item handler (Except.error e)).2.menu_idx = app.menu_idx ∧
    (app.add_menu_item handler (Except.error e)).2.callback = app.callback ∧
    (app.add_menu_separator (Except.error e)).2.menu_idx = app.menu_idx ∧
    (app.add_menu_separator (Except.error e)).2.callback = app.callback :=
  ⟨rfl, rfl, rfl, rfl, rfl, rfl⟩

/-- A window whose buffer-icon operation succeeds exactly when it receives
width 2; it distinguishes the two argument orders at the concrete call
below. -/
def winProbe : WindowIconCall → Except SystrayError Unit :=
  fun c => if c.width = 2 then Except.ok ()
           else Except.error SystrayError.NotImplementedError

/-- Claim C7, counterexample: the claim states the public signature is
`set_icon_from_buffer(bytes, width, height)` forwarding each argument in
the role the caller gave it; the code's signature is
`(buffer, height, width)`. At the concrete call with second argument 1 and
third argument 2, the code hands the window width 2 (the probe succeeds)
while the claimed signature would hand it width 1 (the probe fails), so
the two disagree. -/
theorem set_icon_from_buffer_not_claimed_signature :
    Application.set_icon_from_buffer winProbe [] 1 2 ≠
      claimed_set_icon_from_buffer winProbe [] 1 2 := by
  simp [Application.set_icon_from_buffer, claimed_set_icon_from_buffer, winProbe]

/-- Claim C7, amended: `set_icon_from_buffer` takes the arguments
`(bytes, height, width)` — height second, width third — and is a pure
pass-through: it forwards the same buffer, the same width, and the same
height, each in the role the caller gave it, to the platform window's
`set_icon_from_buffer(buffer, width, height)`, returning its result
unchanged. -/
theorem set_icon_from_buffer_roles_preserved
    (window : WindowIconCall → Except SystrayError Unit)
    (buffer : List Nat) (height width : Nat) :
    Application.set_icon_from_buffer window buffer height width =
      claimed_set_icon_from_buffer window buffer width height := rfl

/-- Claim C8: on the implicit teardown path (the `Drop` impl), `shutdown`
is invoked and any error it returns is absorbed by `.ok()` rather than
propagated or turned into a panic; every other fallible operation of the
`Application` surface propagates the window's error (or, for the
pass-throughs, returns the window's result unchanged). -/
theorem shutdown_failure_absorbed_only_in_drop (e : SystrayError)
    (app : Application) (handler : Nat)
    (window : WindowIconCall → Except SystrayError Unit)
    (buffer : List Nat) (height width : Nat) :
    Application.dropApp (Except.error e) = () ∧
    rustResultOk (Except.error e : Except SystrayError Unit) = none ∧
    Application.new (Except.error e) = Except.error e ∧
    (app.add_menu_item handler (Except.error e)).1 = Except.error e ∧
    (app.add_menu_separator (Except.error e)).1 = Except.error e ∧
    Application.set_icon_from_file (Except.error e) = Except.error e ∧
    Application.set_icon_from_resource (Except.error e) = Except.error e ∧
    Application.set_tooltip (Except.error e) = Except.error e ∧
    Application.set_icon_from_buffer window buffer height width =
      window { buffer := buffer, width := width, height := height } ∧
    Application.shutdown (Except.error e) = Except.error e :=
  ⟨rfl, rfl, rfl, rfl, rfl, rfl, rfl, rfl, rfl, rfl⟩

/-- Claim C10: in the dispatch loop, the `get(&m).unwrap()` performed
after `contains_key(&m)` returned true cannot fail: whenever
`contains_key` is true the lookup returns the handler, and consequently
the whole loop never reaches the panic path (`processEvents` never
returns `none`). -/
theorem lookup_after_contains_never_fails :
    (∀ (reg : Registry) (m : Nat), contains_key m reg = true →
      (map_get m reg).isSome = true) ∧
    (∀ (reg : Registry) (evts : List SystrayEvent),
      (processEvents reg evts).isSome = true) := by
  constructor
  · intro reg m h
    rwa [contains_key_eq_isSome] at h
  · intro reg evts
    rw [processEvents_eq_invocations]
    rfl

/-- Witness for C10 at a concrete registry and event list. -/
theorem lookup_after_contains_never_fails_witness :
    contains_key 3 [(3, 9)] = true ∧ (map_get 3 [(3, 9)]).isSome = true ∧
    (processEvents [(3, 9)]
      [SystrayEvent.MenuEvent 3, SystrayEvent.MenuEvent 4]).isSome = true :=
  ⟨by decide, lookup_after_contains_never_fails.1 [(3, 9)] 3 (by decide),
   lookup_after_contains_never_fails.2 [(3, 9)] _⟩

/-- Claim C1: a `MenuEvent(id)` received by the dispatch loop whose id has
a registered handler invokes that handler exactly once before the next
event is taken from the channel: the run's trace is exactly the
invocations of the events before it, then one invocation of this handler,
then the actions of the later events. Invocation on the dispatch thread
with a clone of the sender is represented by the `invoke` trace action;
synchrony is the sequential order of the trace. -/
theorem menu_event_invokes_handler_once (reg : Registry)
    (pre post : List SystrayEvent) (id cb : Nat)
    (hreg : map_get id reg = some cb)
    (hpre : SystrayEvent.Quit ∉ pre) :
    waitRun reg (pre ++ SystrayEvent.MenuEvent id :: post) =
      some (invocationsUpTo reg pre ++
        DispatchAction.invoke id cb :: invocationsUpTo reg post ++
        [DispatchAction.quitCall, DispatchAction.shutdownCall]) := by
  rw [waitRun_eq, invocationsUpTo_append reg pre _ hpre]
  simp [invocationsUpTo, hreg]

/-- Witness for C1: one registered id, one event, one invocation. -/
theorem menu_event_invokes_handler_once_witness :
    map_get 0 [(0, 7)] = some 7 ∧
    SystrayEvent.Quit ∉ ([] : List SystrayEvent) ∧
    waitRun [(0, 7)] [SystrayEvent.MenuEvent 0] =
      some [DispatchAction.invoke 0 7, DispatchAction.quitCall,
        DispatchAction.shutdownCall] := by
  refine ⟨by decide, by simp, ?_⟩
  have h := menu_event_invokes_handler_once [(0, 7)] [] [] 0 7 (by decide) (by simp)
  simpa [invocationsUpTo] using h

/-- Claim C2: on a freshly constructed application, a sequence of
`add_menu_item`/`add_menu_separator` calls in which every call succeeds
returns the ids 0, 1, 2, ...: each call returns the current counter value
and the counter advances by exactly 1. -/
theorem ids_strictly_increasing_from_zero
    (l : List (MenuCall × Except SystrayError Unit)) (app : Application)
    (hnew : Application.new (Except.ok ()) = Except.ok app)
    (hok : ∀ p ∈ l, p.2 = Except.ok ()) :
    (runCalls app l).1 = (List.range l.length).map Except.ok := by
  have happ : ({ menu_idx := 0, callback := [] } : Application) = app := by
    simpa [Application.new] using hnew
  rw [← happ, (runCalls_all_ok l _ hok).1, List.range_eq_range']

/-- Witness for C2: an item then a separator, both succeeding, return ids
0 and 1. -/
theorem ids_strictly_increasing_from_zero_witness :
    (∀ p ∈ [(MenuCall.item 5, Except.ok ()), (MenuCall.separator, Except.ok ())],
      p.2 = (Except.ok () : Except SystrayError Unit)) ∧
    (runCalls { menu_idx := 0, callback := [] }
        [(MenuCall.item 5, Except.ok ()), (MenuCall.separator, Except.ok ())]).1 =
      [Except.ok 0, Except.ok 1] := by
  refine ⟨by simp, ?_⟩
  have h := ids_strictly_increasing_from_zero
    [(MenuCall.item 5, Except.ok ()), (MenuCall.separator, Except.ok ())]
    { menu_idx := 0, callback := [] } rfl (by simp)
  exact h.trans (by rfl)

/-- Claim C6: a `MenuEvent(id)` whose id is absent from the registry
(separator or stale id) invokes no handler, produces no error, and the
loop goes on to the next receive: the run equals the run without that
event, and it stays on the non-panicking path. -/
theorem unknown_id_skipped (reg : Registry) (id : Nat)
    (pre post : List SystrayEvent)
    (h : contains_key id reg = false) :
    waitRun reg (pre ++ SystrayEvent.MenuEvent id :: post) =
      waitRun reg (pre ++ post) ∧
    (waitRun reg (pre ++ SystrayEvent.MenuEvent id :: post)).isSome = true := by
  have hm : map_get id reg = none := by
    rw [contains_key_eq_isSome] at h
    exact Option.not_isSome_iff_eq_none.mp (by simp [h])
  constructor
  · rw [waitRun_eq, waitRun_eq, invocationsUpTo_skip reg id hm]
  · rw [waitRun_eq]
    rfl

/-- Witness for C6: the spec scenario — a separator got id 0, an item got
id 1; `MenuEvent(0)` is ignored, `MenuEvent(1)` invokes its handler, the
`Quit` stops the loop. -/
theorem unknown_id_skipped_witness :
    contains_key 0 [(1, 7)] = false ∧
    waitRun [(1, 7)]
        [SystrayEvent.MenuEvent 0, SystrayEvent.MenuEvent 1, SystrayEvent.Quit] =
      waitRun [(1, 7)] [SystrayEvent.MenuEvent 1, SystrayEvent.Quit] ∧
    waitRun [(1, 7)] [SystrayEvent.MenuEvent 1, SystrayEvent.Quit] =
      some [DispatchAction.invoke 1 7, DispatchAction.quitCall,
        DispatchAction.shutdownCall] := by
  refine ⟨by decide, ?_, by rfl⟩
  have h := unknown_id_skipped [(1, 7)] 0 []
    [SystrayEvent.MenuEvent 1, SystrayEvent.Quit] (by decide)
  simpa using h.1

theorem count_invoke_invocations (reg : Registry) (id cb : Nat)
    (hm : map_get id reg = some cb) (evts : List SystrayEvent)
    (h : SystrayEvent.Quit ∉ evts) :
    List.count (DispatchAction.invoke id cb) (invocationsUpTo reg evts) =
      List.count (SystrayEvent.MenuEvent id) evts := by
  induction evts with
  | nil => rfl
  | cons e rest ih =>
      have h' : SystrayEvent.Quit ∉ rest := fun hr => h (List.mem_cons_of_mem _ hr)
      cases e with
      | Quit => exact absurd (List.mem_cons_self _ _) h
      | MenuEvent m =>
          by_cases hmid : m = id
          · subst hmid
            rw [invocationsUpTo, hm, List.count_cons_self, List.count_cons_self,
              ih h']
          · have hne : SystrayEvent.MenuEvent id ≠ SystrayEvent.MenuEvent m := by
              simp [Ne.symm hmid]
            cases hm' : map_get m reg with
            | none =>
                rw [invocationsUpTo, hm', List.count_cons_of_ne hne, ih h']
            | some cb' =>
                have hne2 : DispatchAction.invoke id cb ≠
                    DispatchAction.invoke m cb' := by
                  simp [Ne.symm hmid]
                rw [invocationsUpTo, hm', List.count_cons_of_ne hne2,
                  List.count_cons_of_ne hne, ih h']

/-- Claim C3, code bug: the claim (and the spec) say that dropping every
clone of the event sender held outside the dispatch loop, with no `Quit`
posted, makes the loop terminate via the channel-closed (receive error)
path and still run teardown once. The code defeats this: `self` — with
the `tx` field and the window holding its own clone of `event_tx` — is
moved into the spawned closure, so after every external clone is dropped
the loop thread still holds live senders, `recv()` can never return
`Err`, the channel-closed break is unreachable and teardown never runs.
Evaluated at the failing input (all outside senders dropped), the
receive-error condition is false and the loop still holds two
senders. -/
theorem senders_never_all_dropped :
    recvReturnsErr (dropAllOutside sendersAtLoopStart) = false ∧
    (dropAllOutside sendersAtLoopStart).heldByLoop = 2 :=
  ⟨rfl, rfl⟩

/-- Claim C4: when a `Quit` event is posted, the dispatch loop first
processes, in FIFO order, every event enqueued strictly before it, then
exits without processing later events (the run does not depend on them);
after the loop it performs `quit` and then `shutdown` (via the `Drop` of
the application at the end of the spawned thread), each exactly once, and
the trace ends there — no transition back into the running state. -/
theorem quit_event_stops_loop (reg : Registry) (pre post : List SystrayEvent)
    (hpre : SystrayEvent.Quit ∉ pre) :
    waitRun reg (pre ++ SystrayEvent.Quit :: post) =
      some (invocationsUpTo reg pre ++
        [DispatchAction.quitCall, DispatchAction.shutdownCall]) ∧
    (∀ post', waitRun reg (pre ++ SystrayEvent.Quit :: post) =
      waitRun reg (pre ++ SystrayEvent.Quit :: post')) ∧
    List.count DispatchAction.quitCall
      (invocationsUpTo reg pre ++
        [DispatchAction.quitCall, DispatchAction.shutdownCall]) = 1 ∧
    List.count DispatchAction.shutdownCall
      (invocationsUpTo reg pre ++
        [DispatchAction.quitCall, DispatchAction.shutdownCall]) = 1 := by
  have key : ∀ post₀ : List SystrayEvent,
      waitRun reg (pre ++ SystrayEvent.Quit :: post₀) =
        some (invocationsUpTo reg pre ++
          [DispatchAction.quitCall, DispatchAction.shutdownCall]) := by
    intro post₀
    rw [waitRun_eq, invocationsUpTo_append reg pre _ hpre]
    simp [invocationsUpTo]
  refine ⟨key post, fun post' => (key post).trans (key post').symm, ?_, ?_⟩
  · rw [List.count_append, count_quitCall_invocations]
    rfl
  · rw [List.count_append, count_shutdownCall_invocations]
    rfl

/-- Witness for C4: one registered event before the `Quit`, one after; the
event before is processed, the one after is not. -/
theorem quit_event_stops_loop_witness :
    SystrayEvent.Quit ∉ [SystrayEvent.MenuEvent 0] ∧
    waitRun [(0, 7), (1, 8)]
        [SystrayEvent.MenuEvent 0, SystrayEvent.Quit, SystrayEvent.MenuEvent 1] =
      some [DispatchAction.invoke 0 7, DispatchAction.quitCall,
        DispatchAction.shutdownCall] := by
  have h := quit_event_stops_loop [(0, 7), (1, 8)] [SystrayEvent.MenuEvent 0]
    [SystrayEvent.MenuEvent 1] (by decide)
  exact ⟨by decide, h.1.trans (by rfl)⟩

/-- Claim C9: the registry invariant holds along every run of
registration calls from a freshly constructed application: the fresh
registry is empty with counter 0; afterwards every key is strictly below
`menu_idx`; every key is an id returned by a successful `add_menu_item`
call of the run; keys are never removed (extending the run keeps them);
and `add_menu_separator` never touches the registry. The dispatch loop
never writes the registry at all (`waitRun` only reads it). -/
theorem registry_invariant_preserved
    (l l₂ : List (MenuCall × Except SystrayError Unit)) (app : Application)
    (hnew : Application.new (Except.ok ()) = Except.ok app) :
    app.callback = [] ∧ app.menu_idx = 0 ∧
    (∀ k, contains_key k (runCalls app l).2.callback = true →
      k < (runCalls app l).2.menu_idx) ∧
    (∀ k, contains_key k (runCalls app l).2.callback = true →
      ∃ i hd, l.get? i = some (MenuCall.item hd, Except.ok ()) ∧
        (runCalls app l).1.get? i = some (Except.ok k)) ∧
    (∀ k, contains_key k (runCalls app l).2.callback = true →
      contains_key k (runCalls app (l ++ l₂)).2.callback = true) ∧
    (∀ (a : Application) (r : Except SystrayError Unit),
      (a.add_menu_separator r).2.callback = a.callback) := by
  have happ : ({ menu_idx := 0, callback := [] } : Application) = app := by
    simpa [Application.new] using hnew
  subst happ
  refine ⟨rfl, rfl, ?_, ?_, ?_, ?_⟩
  · exact runCalls_bound l _ (fun k hk => by simp [contains_key] at hk)
  · intro k hk
    rcases runCalls_key_provenance l _ k hk with h0 | h
    · simp [contains_key] at h0
    · exact h
  · intro k hk
    rw [runCalls_append]
    exact runCalls_keys_mono l₂ _ k hk
  · intro a r
    cases r <;> rfl

/-- Witness for C9: after one successful `add_menu_item`, key 0 is in the
registry and strictly below the counter. -/
theorem registry_invariant_preserved_witness :
    contains_key 0 (runCalls { menu_idx := 0, callback := [] }
      [(MenuCall.item 5, Except.ok ())]).2.callback = true ∧
    0 < (runCalls { menu_idx := 0, callback := [] }
      [(MenuCall.item 5, Except.ok ())]).2.menu_idx := by
  refine ⟨by decide, ?_⟩
  exact (registry_invariant_preserved [(MenuCall.item 5, Except.ok ())] []
    { menu_idx := 0, callback := [] } rfl).2.2.1 0 (by decide)
